import Mathlib

/-!
Shallow embedding of the YouTube scraper repository (main.py, models.py,
youtube_id.py, youtube_metadata.py, youtube_transcript.py,
youtube_channel.py) and proofs about the behaviour its specification
describes.

Python strings are modelled as `List Char` (`PyStr`), Python dicts as
association lists with insert-or-overwrite semantics in insertion order
(`pyDictInsert`), matching CPython dict behaviour.  Remote calls (the
YouTube data API, the transcript provider) are modelled as explicit
parameters carrying the response data, so that each function of the
repository becomes a pure function of its inputs and of the provider
responses it observes.
-/

/-! ## Python string primitives -/

abbrev PyStr := List Char

/-- The set of characters Python treats as whitespace, both for
`str.strip()` and for the regex class `\s` on `str` (ASCII whitespace,
the C0 separators, NEL, and the Unicode space characters). -/
def pyIsSpace (c : Char) : Bool :=
  c = ' ' || (0x09 ≤ c.toNat && c.toNat ≤ 0x0d) ||
  (0x1c ≤ c.toNat && c.toNat ≤ 0x1f) || c.toNat = 0x85 || c.toNat = 0xa0 ||
  c.toNat = 0x1680 || (0x2000 ≤ c.toNat && c.toNat ≤ 0x200a) ||
  c.toNat = 0x2028 || c.toNat = 0x2029 || c.toNat = 0x202f ||
  c.toNat = 0x205f || c.toNat = 0x3000

/-- Python `str.strip()`: drop whitespace from both ends. -/
def pyStrip (l : PyStr) : PyStr :=
  List.rdropWhile pyIsSpace (List.dropWhile pyIsSpace l)

/-- Python `str.strip(ch)` for a one-character argument: drop every
leading and trailing occurrence of `ch`. -/
def pyStripChar (ch : Char) (l : PyStr) : PyStr :=
  List.rdropWhile (· = ch) (List.dropWhile (· = ch) l)

/-- Python `str.split(sep)` for a one-character separator: split at every
occurrence, keeping empty segments. -/
def pySplitChar (sep : Char) (l : PyStr) : List PyStr :=
  l.foldr
    (fun c acc =>
      match acc with
      | [] => [[c]]
      | h :: t => if c = sep then [] :: h :: t else (c :: h) :: t)
    [[]]

/-- Python `str.split(sep, 1)` when the separator occurs: the part before
the first occurrence and the part after it.  `none` when `sep` is absent. -/
def splitFirstChar? (sep : Char) (l : PyStr) : Option (PyStr × PyStr) :=
  if l.contains sep then
    some (l.takeWhile (· ≠ sep), (l.dropWhile (· ≠ sep)).tail)
  else none

/-! ## Python dict primitives (association lists in insertion order) -/

/-- Membership test `k in d` for a Python dict. -/
def pyDictContains (d : List (PyStr × β)) (k : PyStr) : Bool :=
  d.any (fun p => p.1 == k)

/-- Python `d[k] = v`: overwrite in place when the key exists, append
otherwise (CPython dicts preserve insertion order). -/
def pyDictInsert (d : List (PyStr × β)) (k : PyStr) (v : β) :
    List (PyStr × β) :=
  if pyDictContains d k then
    d.map (fun p => if p.1 == k then (k, v) else p)
  else d ++ [(k, v)]

/-- Python `d.get(k)` / `d[k]` lookup. -/
def pyDictGet? (d : List (PyStr × β)) (k : PyStr) : Option β :=
  (d.find? (fun p => p.1 == k)).map (·.2)

/-- Python `d.get(k, dflt)`. -/
def pyDictGetD (d : List (PyStr × β)) (k : PyStr) (dflt : β) : β :=
  (pyDictGet? d k).getD dflt

/-- Python `d.update(new)`: insert every binding of `new`, in order. -/
def pyDictUpdate (d new : List (PyStr × β)) : List (PyStr × β) :=
  new.foldl (fun acc p => pyDictInsert acc p.1 p.2) d

/-! ## youtube_id.py : urllib.parse model and extract_video_id

`urllib.parse.urlparse` / `parse_qs` are Python standard library
collaborators; they are modelled here following CPython `urlsplit`
(scheme, then netloc, then fragment, then query; the rarely used
`;parameters` split of `urlparse` is omitted, and percent decoding is
restricted to single-byte sequences). -/

structure UrlParsed where
  scheme : PyStr
  netloc : PyStr
  path : PyStr
  query : PyStr
deriving DecidableEq

/-- Characters allowed in a URL scheme (CPython `scheme_chars`). -/
def schemeChar (c : Char) : Bool :=
  c.isAlpha || c.isDigit || c = '+' || c = '-' || c = '.'

/-- CPython urlsplit scheme extraction: the text before the first colon is
the scheme when it is non-empty, starts with a letter, and consists of
scheme characters; it is lowercased. -/
def splitScheme (url : PyStr) : PyStr × PyStr :=
  match splitFirstChar? ':' url with
  | none => ([], url)
  | some (bef, aft) =>
    if bef ≠ [] ∧ (match url.head? with
        | some c => c.isAlpha
        | none => false) = true ∧ bef.all schemeChar then
      (bef.map Char.toLower, aft)
    else ([], url)

/-- CPython urlsplit netloc extraction: after a leading `//`, the netloc
runs until the first `/`, `?` or `#`. -/
def splitNetloc (url : PyStr) : PyStr × PyStr :=
  match url with
  | '/' :: '/' :: rest =>
    (rest.takeWhile (fun c => !(c = '/' || c = '?' || c = '#')),
     rest.dropWhile (fun c => !(c = '/' || c = '?' || c = '#')))
  | _ => ([], url)

/-- Model of `urllib.parse.urlparse` (as used by youtube_id.py: only the
scheme, netloc, path and query components are consumed). -/
def urlparse (url : PyStr) : UrlParsed :=
  let su := splitScheme url
  let nu := splitNetloc su.2
  let fu := match splitFirstChar? '#' nu.2 with
    | some ab => ab.1
    | none => nu.2
  let pq := match splitFirstChar? '?' fu with
    | some ab => ab
    | none => (fu, [])
  ⟨su.1, nu.1, pq.1, pq.2⟩

/-- Hexadecimal digit value, for percent decoding. -/
def hexDigit? (c : Char) : Option Nat :=
  if '0' ≤ c ∧ c ≤ '9' then some (c.toNat - '0'.toNat)
  else if 'a' ≤ c ∧ c ≤ 'f' then some (c.toNat - 'a'.toNat + 10)
  else if 'A' ≤ c ∧ c ≤ 'F' then some (c.toNat - 'A'.toNat + 10)
  else none

/-- Model of `urllib.parse.unquote_plus` on single-byte sequences:
`+` becomes a space and `%XY` hex pairs are decoded; malformed escapes
are left as-is. -/
def unquotePlus : PyStr → PyStr
  | [] => []
  | '%' :: a :: b :: rest =>
    match hexDigit? a, hexDigit? b with
    | some x, some y => Char.ofNat (16 * x + y) :: unquotePlus rest
    | _, _ => '%' :: unquotePlus (a :: b :: rest)
  | '+' :: rest => ' ' :: unquotePlus rest
  | c :: rest => c :: unquotePlus rest

/-- CPython `parse_qsl` with default arguments: split the query on `&`,
skip empty fragments, skip fragments without `=`, skip empty values. -/
def parseQsl (qs : PyStr) : List (PyStr × PyStr) :=
  (pySplitChar '&' qs).foldl
    (fun acc nv =>
      if nv = [] then acc
      else
        match splitFirstChar? '=' nv with
        | none => acc
        | some (n, v) =>
          if v = [] then acc else acc ++ [(unquotePlus n, unquotePlus v)])
    []

/-- Model of `urllib.parse.parse_qs`: group the `parse_qsl` pairs into a
dict from name to the list of values in order. -/
def parse_qs (qs : PyStr) : List (PyStr × List PyStr) :=
  (parseQsl qs).foldl
    (fun d p =>
      match pyDictGet? d p.1 with
      | some vs => pyDictInsert d p.1 (vs ++ [p.2])
      | none => pyDictInsert d p.1 [p.2])
    []

/-- Python `s.split(sep)` for a (non-empty) string separator `s0 :: stail`:
leftmost, non-overlapping occurrences. -/
def strSplitSeq (s0 : Char) (stail : PyStr) : PyStr → List PyStr
  | [] => [[]]
  | c :: rest =>
    if (s0 :: stail).isPrefixOf (c :: rest) then
      [] :: strSplitSeq s0 stail ((c :: rest).drop (s0 :: stail).length)
    else
      match strSplitSeq s0 stail rest with
      | [] => [[c]]
      | h :: t => (c :: h) :: t
termination_by l => l.length
decreasing_by
  · simp only [List.length_drop, List.length_cons]
    omega
  · simp [List.length_cons]

/-- Embedding of `youtube_id.extract_video_id` (youtube_id.py lines
5-53): bare 11-character tokens pass through; `youtu.be` short links and
`youtube.com` watch/embed/v links are parsed; everything else is `none`. -/
def extract_video_id (input_str : PyStr) : Option PyStr :=
  if input_str = [] ∨ pyStrip input_str = [] then none
  else
    let inp := pyStrip input_str
    if (¬ inp.contains '/' ∧ ¬ inp.contains '?' ∧ ¬ inp.contains '=')
        ∧ inp.length = 11 then
      some inp
    else
      let parsed := urlparse inp
      let vidShort := parsed.path.dropWhile (· = '/')
      if (parsed.netloc = "youtu.be".toList ∨
          parsed.netloc = "www.youtu.be".toList) ∧ vidShort ≠ [] then
        some (vidShort.takeWhile (· ≠ '?'))
      else if parsed.netloc = "www.youtube.com".toList ∨
          parsed.netloc = "youtube.com".toList ∨
          parsed.netloc = "m.youtube.com".toList then
        if parsed.path = "/watch".toList then
          match pyDictGet? (parse_qs parsed.query) "v".toList with
          | some (v0 :: _) => some v0
          | _ => none
        else if ("/embed/".toList).isPrefixOf parsed.path then
          some ((((strSplitSeq '/' "embed/".toList) parsed.path).getD 1 []).takeWhile
            (· ≠ '?'))
        else if ("/v/".toList).isPrefixOf parsed.path then
          some ((((strSplitSeq '/' "v/".toList) parsed.path).getD 1 []).takeWhile
            (· ≠ '?'))
        else none
      else none

/-! ## models.py : data model -/

/-- models.py `YoutubeVideoFull`. -/
structure YoutubeVideoFull where
  id : PyStr
  url : PyStr
  title : PyStr
  description : PyStr
  channel_title : PyStr
  published_at : PyStr
  duration : PyStr
  thumbnails : List (PyStr × Option PyStr)
  transcript : Option PyStr
  view_count : Option Nat
deriving DecidableEq

/-- models.py `YoutubeError`. -/
structure YoutubeError where
  id_or_url : PyStr
  message : PyStr
deriving DecidableEq

/-- models.py `YoutubeDetailsResponse`. -/
structure YoutubeDetailsResponse where
  items : List YoutubeVideoFull
  errors : List YoutubeError
deriving DecidableEq

/-! ## youtube_metadata.py : batched metadata fetching

The remote `videos.list` call is modelled by passing the decoded JSON
response as data: `ApiSnippet`/`ApiItem`/`ApiData` mirror the fields that
`_fetch_batch` reads (each `.get` with a default becomes an `Option`
field), and a transport or provider error is an `Except.error` response. -/

structure ApiSnippet where
  title? : Option PyStr
  description? : Option PyStr
  channelTitle? : Option PyStr
  publishedAt? : Option PyStr
  thumbnails : List (PyStr × List (PyStr × PyStr))
deriving DecidableEq

structure ApiContentDetails where
  duration? : Option PyStr
deriving DecidableEq

structure ApiItem where
  id : PyStr
  snippet : ApiSnippet
  contentDetails : ApiContentDetails
deriving DecidableEq

structure ApiData where
  items? : Option (List ApiItem)
deriving DecidableEq

/-- The four fixed thumbnail size names of youtube_metadata.py line 68. -/
def thumbnailSizes : List PyStr :=
  ["default".toList, "medium".toList, "high".toList, "maxres".toList]

/-- youtube_metadata.py lines 66-72: one entry per fixed size name; a size
present in the provider data contributes its optional `url` field, an
absent size contributes `None`. -/
def buildThumbnails (td : List (PyStr × List (PyStr × PyStr))) :
    List (PyStr × Option PyStr) :=
  thumbnailSizes.foldl
    (fun d size =>
      if pyDictContains td size then
        pyDictInsert d size (pyDictGet? (pyDictGetD td size []) "url".toList)
      else pyDictInsert d size none)
    []

/-- youtube_metadata.py lines 74-87: the `YoutubeVideoFull` built from one
response item.  Note that `_fetch_batch` requests only
`part=snippet,contentDetails`, so `view_count` is left at its model
default `None`. -/
def buildVideo (item : ApiItem) : YoutubeVideoFull :=
  { id := item.id
    url := "https://www.youtube.com/watch?v=".toList ++ item.id
    title := item.snippet.title?.getD []
    description := item.snippet.description?.getD []
    channel_title := item.snippet.channelTitle?.getD []
    published_at := item.snippet.publishedAt?.getD []
    duration := item.contentDetails.duration?.getD []
    thumbnails := buildThumbnails item.snippet.thumbnails
    transcript := none
    view_count := none }

/-- youtube_metadata.py lines 57-88: build the per-batch result dict from
a successful response (skipped entirely when the response has no
`items` key). -/
def buildBatchResults (data : ApiData) : List (PyStr × YoutubeVideoFull) :=
  match data.items? with
  | none => []
  | some items =>
    items.foldl (fun results item => pyDictInsert results item.id (buildVideo item)) []

/-- youtube_metadata.py lines 10-15 `get_youtube_api_key`: the missing (or
empty) credential raises `ValueError`. -/
def get_youtube_api_key (env : Option PyStr) : Except PyStr PyStr :=
  match env with
  | none => Except.error "YOUTUBE_API_KEY environment variable is not set".toList
  | some k =>
    if k = [] then
      Except.error "YOUTUBE_API_KEY environment variable is not set".toList
    else Except.ok k

/-- youtube_metadata.py lines 40-98 `_fetch_batch`: the credential is read
before the `try` block (so its absence propagates), and inside the block
any transport or provider error is swallowed into an empty dict. -/
def fetchBatch (apiKey : Option PyStr) (resp : Except Unit ApiData) :
    Except PyStr (List (PyStr × YoutubeVideoFull)) :=
  match get_youtube_api_key apiKey with
  | Except.error e => Except.error e
  | Except.ok _ =>
    match resp with
    | Except.error _ => Except.ok []
    | Except.ok data => Except.ok (buildBatchResults data)

/-- Chunking loop of youtube_metadata.py lines 31-34
(`for i in range(0, len(video_ids), 50)`), with an explicit fuel argument
(any fuel at least the list length gives the full chunking). -/
def pyChunksAux (l : List α) : Nat → List (List α)
  | 0 => []
  | fuel + 1 => if l.isEmpty then [] else l.take 50 :: pyChunksAux (l.drop 50) fuel

/-- The batches of at most 50 identifiers cut from the input, in order. -/
def pyChunks50 (l : List α) : List (List α) :=
  pyChunksAux l l.length

/-- youtube_metadata.py lines 18-37 `fetch_youtube_metadata`: empty input
short-circuits; otherwise the per-batch results are merged into one dict
with `dict.update`.  The remote call is the parameter `fb`, mapping a
batch to the dict `_fetch_batch` returned for it. -/
def fetch_youtube_metadata (fb : List PyStr → List (PyStr × YoutubeVideoFull))
    (video_ids : List PyStr) : List (PyStr × YoutubeVideoFull) :=
  if video_ids = [] then []
  else (pyChunks50 video_ids).foldl (fun results batch => pyDictUpdate results (fb batch)) []

/-! ## main.py : the aggregation pipeline `get_youtube_details`

Two collaborators are parameters: `setList` models the iteration order of
`list(set(valid_ids))` at main.py line 97 — CPython string sets iterate in
a hash-dependent, run-varying order, so the model only fixes that the
result is some duplicate-free permutation of its input, supplied as a
function; and `ts` models `fetch_transcript_text` for one identifier
(either a returned optional string — including the in-band
`"__BLOCKED__"` marker — or a raised exception). -/

inductive TsResult where
  | ret (r : Option PyStr)
  | exn
deriving DecidableEq

/-- main.py lines 136-160: the transcript stored on a video.  A returned
`"__BLOCKED__"`, a returned `None`, and a raised exception all store
`None`; only a real text is kept. -/
def transcriptOf (ts : PyStr → TsResult) (vid : PyStr) : Option PyStr :=
  match ts vid with
  | .ret (some t) => if t = "__BLOCKED__".toList then none else some t
  | .ret none => none
  | .exn => none

/-- main.py lines 82-94 (step 1): extraction failures become errors;
extracted identifiers are recorded at first occurrence, keeping
`valid_ids` in first-seen order and mapping each identifier back to its
first originating input. -/
def extractStep (inputs : List PyStr) :
    List YoutubeError × List PyStr × List (PyStr × PyStr) :=
  inputs.foldl
    (fun acc input =>
      match extract_video_id input with
      | none =>
        (acc.1 ++ [⟨input, "Invalid YouTube URL or ID format".toList⟩], acc.2.1, acc.2.2)
      | some vid =>
        if pyDictContains acc.2.2 vid then acc
        else (acc.1, acc.2.1 ++ [vid], pyDictInsert acc.2.2 vid input))
    ([], [], [])

/-- The deduplicated (first-occurrence, input-order) valid identifiers of
an input list — main.py `valid_ids` after step 1. -/
def valid_ids_of (inputs : List PyStr) : List PyStr :=
  (extractStep inputs).2.1

/-- main.py lines 120-181 (step 4): walk `unique_ids`, skip identifiers
without metadata and identifiers already processed, set the transcript
field, and append to `items`. -/
def processLoop (metadata_dict : List (PyStr × YoutubeVideoFull))
    (ts : PyStr → TsResult) (include_transcripts : Bool)
    (unique_ids : List PyStr) : List YoutubeVideoFull :=
  (unique_ids.foldl
    (fun (acc : List PyStr × List YoutubeVideoFull) vid =>
      match pyDictGet? metadata_dict vid with
      | none => acc
      | some video =>
        if acc.1.contains vid then acc
        else
          (acc.1 ++ [vid],
           acc.2 ++ [{ video with
             transcript := if include_transcripts then transcriptOf ts vid else none }]))
    ([], [])).2

/-- main.py lines 62-192 `get_youtube_details`.  `fb` is the metadata
provider (per batch), `setList` the `list(set(·))` order at line 97.
Progress callbacks only report status and are omitted. -/
def get_youtube_details (setList : List PyStr → List PyStr)
    (fb : List PyStr → List (PyStr × YoutubeVideoFull))
    (ts : PyStr → TsResult) (include_transcripts : Bool)
    (inputs : List PyStr) : YoutubeDetailsResponse :=
  let st := extractStep inputs
  let errors := st.1
  let id_to_input := st.2.2
  let unique_ids := setList st.2.1
  if unique_ids = [] then ⟨[], errors⟩
  else
    let metadata_dict := fetch_youtube_metadata fb unique_ids
    if metadata_dict = [] then ⟨[], errors⟩
    else
      let items := processLoop metadata_dict ts include_transcripts unique_ids
      let errors2 := errors ++ unique_ids.filterMap (fun vid =>
        if pyDictContains metadata_dict vid then none
        else some ⟨pyDictGetD id_to_input vid vid,
          "Video not found or metadata unavailable".toList⟩)
      ⟨items, errors2⟩

/-! ## main.py : parse_bulk_input (text branch) -/

/-- The body of the per-line loop of main.py lines 241-250: strip the
line, skip it when empty or a `#` comment, take the first CSV column when
a comma is present (re-stripping it), strip surrounding double then
single quotes, and append when something remains. -/
def parse_bulk_body (urls : List PyStr) (line0 : PyStr) : List PyStr :=
  let line1 := pyStrip line0
  if line1 ≠ [] ∧ ¬ line1.head? = some '#' then
    let line2 :=
      if line1.contains ',' then pyStrip (line1.takeWhile (· ≠ ',')) else line1
    let line3 := pyStripChar '\'' (pyStripChar '"' line2)
    if line3 ≠ [] then urls ++ [line3] else urls
  else urls

/-- main.py lines 238-250 `parse_bulk_input` for `text/plain` / `text/csv`
content: split the stripped content on newlines and run the per-line
loop. -/
def parse_bulk_input (content : PyStr) : List PyStr :=
  (pySplitChar '\n' (pyStrip content)).foldl parse_bulk_body []

/-- The per-line behaviour claimed by the specification: skip a line whose
stripped form is empty or starts with `#`; otherwise take the text before
the first comma, strip whitespace and then surrounding double and single
quotes, and drop the line when nothing remains. -/
def bulkLineSpec (line : PyStr) : Option PyStr :=
  let s := pyStrip line
  if s = [] then none
  else if s.head? = some '#' then none
  else
    let t := pyStripChar '\'' (pyStripChar '"' (pyStrip (s.takeWhile (· ≠ ','))))
    if t = [] then none else some t

/-- Specification-side reading of `parse_bulk_input`: one independent
filter-map over the lines. -/
def parse_bulk_input_spec (content : PyStr) : List PyStr :=
  (pySplitChar '\n' (pyStrip content)).filterMap bulkLineSpec

/-! ## youtube_transcript.py : transcript text cleanup -/

/-- Python `str.replace` for the two-character separator `\r\n`
(leftmost, non-overlapping). -/
def replaceCRLF : PyStr → PyStr
  | [] => []
  | '\r' :: '\n' :: rest => ' ' :: replaceCRLF rest
  | c :: rest => c :: replaceCRLF rest

/-- The character class `[\x00-\x1f\x7f-\x9f]` of youtube_transcript.py
line 108. -/
def isCtrl (c : Char) : Bool :=
  c.toNat ≤ 0x1f || (0x7f ≤ c.toNat && c.toNat ≤ 0x9f)

/-- Worker for `re.sub(r'\s+', ' ', ·)`: the flag records whether the
previous character belonged to a whitespace run already replaced. -/
def wsCollapseAux : Bool → PyStr → PyStr
  | _, [] => []
  | prevSpace, c :: rest =>
    if pyIsSpace c then
      if prevSpace then wsCollapseAux true rest
      else ' ' :: wsCollapseAux true rest
    else c :: wsCollapseAux false rest

/-- `re.sub(r'\s+', ' ', ·)`: every maximal whitespace run becomes one
space. -/
def wsCollapse (l : PyStr) : PyStr :=
  wsCollapseAux false l

/-- youtube_transcript.py lines 97-112: the cleanup chain applied to the
formatted caption text — backslashes removed, `\r\n`/`\n`/`\r`/`\t`
replaced by spaces, remaining control characters replaced by spaces,
whitespace runs collapsed, ends stripped. -/
def cleanTranscriptText (raw : PyStr) : PyStr :=
  let s1 := raw.filter (fun c => ¬ c = '\\')
  let s2 := replaceCRLF s1
  let s3 := s2.map (fun c => if c = '\n' then ' ' else c)
  let s4 := s3.map (fun c => if c = '\r' then ' ' else c)
  let s5 := s4.map (fun c => if c = '\t' then ' ' else c)
  let s6 := s5.map (fun c => if isCtrl c then ' ' else c)
  pyStrip (wsCollapse s6)

/-- youtube_transcript.py lines 49-131 `fetch_transcript_text`
(localhost branch): `payload` is the formatted caption text when a
transcript was found and fetched, `none` when no transcript is available
or any error was raised.  Lines 115-116 apply the optional truncation. -/
def fetch_transcript_text (payload : Option PyStr)
    (truncate_transcripts : Bool) (transcript_char_limit : Option Nat) :
    Option PyStr :=
  match payload with
  | none => none
  | some raw =>
    let t := cleanTranscriptText raw
    match transcript_char_limit with
    | some m =>
      if truncate_transcripts ∧ m ≠ 0 ∧ t.length > m then some (t.take m)
      else some t
    | none => some t

/-! ## youtube_channel.py : channel listing and the popular-sort path -/

/-- One listing page: for each response item, its `id.videoId` when
present (youtube_channel.py lines 203-206 skip items without one). -/
def collectPage (pg : List (Option PyStr)) : List PyStr :=
  pg.filterMap id

/-- youtube_channel.py lines 184-226: the paging loop.  `pages` is the
sequence of pages the provider returns (a transport error mid-listing
simply ends this sequence early, matching the `break` on exception).
After appending a page, when not in fetch-all mode and `max_videos` is
truthy and reached, the collected list is truncated and the loop stops. -/
def pagingLoop (fetchAll : Bool) (maxVideos : Option Nat) :
    List (List (Option PyStr)) → List PyStr → List PyStr
  | [], acc => acc
  | pg :: rest, acc =>
    let acc2 := acc ++ collectPage pg
    match maxVideos with
    | some m =>
      if ¬ fetchAll ∧ m ≠ 0 ∧ acc2.length ≥ m then acc2.take m
      else pagingLoop fetchAll maxVideos rest acc2
    | none => pagingLoop fetchAll maxVideos rest acc2

/-- youtube_channel.py lines 156-226 `fetch_channel_video_ids` (paging
part; key/channel resolution happen before it): fetch-all mode is active
exactly when `sort_by == "popular"`. -/
def fetch_channel_video_ids (pages : List (List (Option PyStr)))
    (max_videos : Option Nat) (sort_by : PyStr) : List PyStr :=
  pagingLoop (sort_by = "popular".toList) max_videos pages []

/-- The sort key of main.py line 605:
`v.view_count if v.view_count is not None else 0`. -/
def viewKey (v : YoutubeVideoFull) : Nat :=
  v.view_count.getD 0

/-- Stable descending insertion by key: the new element goes after every
already-placed element whose key is greater than or equal to its own. -/
def insertDescBy (key : α → Nat) (x : α) : List α → List α
  | [] => [x]
  | y :: ys => if key y < key x then x :: y :: ys else y :: insertDescBy key x ys

/-- Model of the Python builtin `sorted(·, key=key, reverse=True)`:
a stable sort, descending by key, equal keys keeping input order. -/
def pySortedDescBy (key : α → Nat) (l : List α) : List α :=
  l.foldl (fun acc x => insertDescBy key x acc) []

/-- main.py lines 603-614: sort the metadata dict values by view count
descending, truncate to `max_videos` when truthy, and extract the
identifiers in sorted order. -/
def popular_selection (metadata_dict : List (PyStr × YoutubeVideoFull))
    (max_videos : Option Nat) : List PyStr :=
  let sorted_videos := pySortedDescBy viewKey (metadata_dict.map Prod.snd)
  let sorted2 :=
    match max_videos with
    | some m => if m ≠ 0 then sorted_videos.take m else sorted_videos
    | none => sorted_videos
  sorted2.map (·.id)

/-- main.py lines 550 and 592-616, the `sort_by == "popular"` path of
`process_channel_export`: list the channel (fetch-all), fetch metadata for
the full listing, and select by the popularity sort. -/
def process_channel_export_popular (pages : List (List (Option PyStr)))
    (fb : List PyStr → List (PyStr × YoutubeVideoFull))
    (max_videos : Option Nat) : List PyStr :=
  let video_ids := fetch_channel_video_ids pages max_videos "popular".toList
  let metadata_dict := fetch_youtube_metadata fb video_ids
  popular_selection metadata_dict max_videos

/-! ## main.py : job finalization -/

inductive JobResult where
  | details (r : YoutubeDetailsResponse)
  | channel (channel_id channel_title : PyStr) (total_videos processed_videos : Nat)
      (data : YoutubeDetailsResponse) (errors : List YoutubeError)
deriving DecidableEq

/-- One entry of the `jobs` mapping (main.py lines 317-324). -/
structure Job where
  status : String
  current : Nat
  total : Nat
  message : String
  result : Option JobResult
deriving DecidableEq

/-- How one background run of `process_bulk_details` ends: the aggregation
returned (with the cancellation flag possibly set), the task was
cancelled by the scheduler, or an exception escaped. -/
inductive BulkOutcome where
  | ok (resp : YoutubeDetailsResponse) (cancelled : Bool)
  | cancelledErr
  | exn (msg : String)

/-- main.py lines 368-392: finalization of `process_bulk_details`. -/
def process_bulk_details_finalize (o : BulkOutcome) (j : Job) : Job :=
  match o with
  | .ok resp cancelled =>
    if cancelled then { j with status := "cancelled" }
    else
      { status := "completed", current := resp.items.length,
        total := resp.items.length, message := "Completed",
        result := some (.details resp) }
  | .cancelledErr => { j with status := "cancelled", message := "Cancelled by user" }
  | .exn msg =>
    { status := "error", current := 0, total := 0,
      message := "Error: " ++ msg, result := none }

/-- How one background run of `process_channel_export` ends, after the
early-error returns: the selected identifiers and aggregation response
(with the cancellation flag possibly set), scheduler cancellation, or an
escaped exception. -/
inductive ChannelOutcome where
  | ok (resolved_id channel_title : PyStr) (video_ids : List PyStr)
      (resp : YoutubeDetailsResponse) (cancelled : Bool)
  | cancelledErr
  | exn (msg : String)

/-- main.py lines 624-668: finalization of `process_channel_export`.  On
success `current` is the number of processed items but `total` is the
number of selected identifiers. -/
def process_channel_export_finalize (o : ChannelOutcome) (j : Job) : Job :=
  match o with
  | .ok cid title vids resp cancelled =>
    if cancelled then { j with status := "cancelled" }
    else
      { status := "completed", current := resp.items.length,
        total := vids.length, message := "Completed",
        result := some (.channel cid title vids.length resp.items.length resp resp.errors) }
  | .cancelledErr => { j with status := "cancelled", message := "Cancelled by user" }
  | .exn msg =>
    { status := "error", current := 0, total := 0,
      message := "Error: " ++ msg, result := none }

/-! ## Concrete fixtures for the scenarios examined below -/

/-- A syntactically valid bare video identifier (11 characters). -/
def vidA : PyStr := "AAAAAAAAAAA".toList

/-- A second, distinct bare video identifier. -/
def vidB : PyStr := "BBBBBBBBBBB".toList

/-- A bare metadata record, used as provider response data in the
concrete scenarios. -/
def plainVideo (vid : PyStr) : YoutubeVideoFull :=
  ⟨vid, [], [], [], [], [], [], [], none, none⟩

/-- A provider fixture answering every requested batch with one record per
requested identifier, in request order. -/
def echoBatch (batch : List PyStr) : List (PyStr × YoutubeVideoFull) :=
  batch.map (fun v => (v, plainVideo v))

/-- A minimal `videos.list` response item carrying only an identifier. -/
def apiItemFor (vid : PyStr) : ApiItem :=
  ⟨vid, ⟨none, none, none, none, []⟩, ⟨none⟩⟩

/-- A one-page channel listing fixture: the channel lists `vidA` before
`vidB` (the provider's date-descending order). -/
def listingPagesAB : List (List (Option PyStr)) :=
  [[some vidA, some vidB]]

/-- A metadata provider fixture whose response lists `vidB` before
`vidA` (response order need not match request order). -/
def metadataRespBA : List PyStr → List (PyStr × YoutubeVideoFull) :=
  fun _ => buildBatchResults ⟨some [apiItemFor vidB, apiItemFor vidA]⟩

/-- A freshly created job record (main.py lines 317-324). -/
def initialJob : Job :=
  ⟨"running", 0, 0, "Starting...", none⟩

/-! ## General lemmas about the Python string primitives -/

theorem head?_dropWhile_false {α : Type} (p : α → Bool) (l : List α) (c : α)
    (h : (l.dropWhile p).head? = some c) : p c = false := by
  have w : l.dropWhile p ≠ [] := by
    intro hx
    rw [hx] at h
    simp at h
  have hc : (l.dropWhile p).head w = c := by
    rw [List.head?_eq_head w] at h
    exact Option.some_injective _ h
  have hn := List.head_dropWhile_not p l w
  rw [hc] at hn
  exact hn

theorem head?_rdropWhile {α : Type} (p : α → Bool) (l : List α) (c : α)
    (h : (List.rdropWhile p l).head? = some c) : l.head? = some c := by
  induction l using List.reverseRecOn with
  | nil => simp [List.rdropWhile_nil] at h
  | append_singleton xs x ih =>
    rw [List.rdropWhile_concat] at h
    by_cases hx : p x
    · rw [if_pos hx] at h
      have hx2 := ih h
      cases xs with
      | nil => simp at hx2
      | cons a as => simpa using hx2
    · rw [if_neg hx] at h
      exact h

theorem pyStrip_idem (l : PyStr) : pyStrip (pyStrip l) = pyStrip l := by
  unfold pyStrip
  have h1 : List.dropWhile pyIsSpace
      (List.rdropWhile pyIsSpace (List.dropWhile pyIsSpace l)) =
      List.rdropWhile pyIsSpace (List.dropWhile pyIsSpace l) := by
    cases hrm : List.rdropWhile pyIsSpace (List.dropWhile pyIsSpace l) with
    | nil => simp
    | cons c t =>
      have hc : (List.dropWhile pyIsSpace l).head? = some c :=
        head?_rdropWhile _ _ _ (by rw [hrm]; rfl)
      have hf : pyIsSpace c = false := head?_dropWhile_false _ _ _ hc
      simp [List.dropWhile_cons, hf]
  rw [h1, List.rdropWhile_idempotent]

theorem takeWhile_ne_of_not_mem {α : Type} [DecidableEq α] (sep : α) :
    ∀ l : List α, sep ∉ l → l.takeWhile (· ≠ sep) = l := by
  intro l
  induction l with
  | nil => intro _; rfl
  | cons c t ih =>
    intro h
    have hc : c ≠ sep := by
      intro he
      exact h (he ▸ List.mem_cons_self c t)
    have ht : sep ∉ t := fun hm => h (List.mem_cons_of_mem c hm)
    rw [List.takeWhile_cons, if_pos (by simpa using hc), ih ht]

/-! ## Claim C4 : idempotence of extract_video_id -/

/-- Claim C4 as stated is false: the `youtu.be` branch of
`extract_video_id` returns the path segment without validating its
length, so `https://youtu.be/abc` yields `abc`, on which a second
application returns `none` (the bare-token branch requires 11
characters). -/
theorem extract_video_id_not_idem :
    extract_video_id "https://youtu.be/abc".toList = some "abc".toList ∧
    extract_video_id "abc".toList ≠ some "abc".toList :=
  ⟨by decide, by decide⟩

/-- Claim C4 (amended): whenever `extract_video_id` returns an identifier
`v` that is an 11-character token containing no `/`, `?` or `=` and
carrying no surrounding whitespace, re-applying `extract_video_id` to `v`
returns the same `v`. -/
theorem extract_video_id_idem (input v : PyStr)
    (_h : extract_video_id input = some v) (hlen : v.length = 11)
    (hs : ¬ v.contains '/') (hq : ¬ v.contains '?') (he : ¬ v.contains '=')
    (hstrip : pyStrip v = v) :
    extract_video_id v = some v := by
  have hne : v ≠ [] := by
    intro hv
    rw [hv] at hlen
    simp at hlen
  have hs2 : '/' ∉ v := by simpa using hs
  have hq2 : '?' ∉ v := by simpa using hq
  have he2 : '=' ∉ v := by simpa using he
  unfold extract_video_id
  rw [hstrip]
  simp [hne, hs2, hq2, he2, hlen]

/-- Witness for the amended claim C4 at a concrete input. -/
theorem extract_video_id_idem_witness :
    extract_video_id "dQw4w9WgXcQ".toList = some "dQw4w9WgXcQ".toList ∧
    extract_video_id "dQw4w9WgXcQ".toList = some "dQw4w9WgXcQ".toList :=
  ⟨by decide,
   extract_video_id_idem "dQw4w9WgXcQ".toList "dQw4w9WgXcQ".toList
     (by decide) (by decide) (by decide) (by decide) (by decide) (by decide)⟩

/-! ## Claim C10 : parse_bulk_input -/

theorem parse_bulk_line_eq (urls : List PyStr) (line0 : PyStr) :
    parse_bulk_body urls line0 = urls ++ (bulkLineSpec line0).toList := by
  unfold parse_bulk_body bulkLineSpec
  by_cases h1 : pyStrip line0 = []
  · rw [if_neg (by simp [h1]), if_pos h1]
    simp
  · by_cases h2 : (pyStrip line0).head? = some '#'
    · rw [if_neg (by simp [h2]), if_neg h1, if_pos h2]
      simp
    · rw [if_pos ⟨h1, h2⟩, if_neg h1, if_neg h2]
      have hline2 :
          (if (pyStrip line0).contains ',' then
            pyStrip ((pyStrip line0).takeWhile (· ≠ ',')) else pyStrip line0) =
          pyStrip ((pyStrip line0).takeWhile (· ≠ ',')) := by
        by_cases hc : (pyStrip line0).contains ','
        · rw [if_pos hc]
        · rw [if_neg hc]
          have hc2 : ',' ∉ pyStrip line0 := by simpa using hc
          rw [takeWhile_ne_of_not_mem ',' (pyStrip line0) hc2]
          exact (pyStrip_idem line0).symm
      rw [hline2]
      by_cases h3 :
          pyStripChar '\'' (pyStripChar '"'
            (pyStrip ((pyStrip line0).takeWhile (· ≠ ',')))) = []
      · rw [if_neg (by simpa using h3), if_pos h3]
        simp
      · rw [if_pos h3, if_neg h3]
        simp

theorem parse_bulk_fold (lines : List PyStr) :
    ∀ acc, lines.foldl parse_bulk_body acc = acc ++ lines.filterMap bulkLineSpec := by
  induction lines with
  | nil => intro acc; simp
  | cons hd tl ih =>
    intro acc
    rw [List.foldl_cons, List.filterMap_cons, parse_bulk_line_eq]
    cases hspec : bulkLineSpec hd with
    | none => simp [ih]
    | some t => rw [ih]; simp

/-- Claim C10: the bulk text parser is exactly the per-line filter-map
described by the specification — it drops empty lines and lines whose
stripped form starts with `#`, keeps only the text before the first
comma, strips whitespace and surrounding double then single quotes, and
drops the line when nothing remains. -/
theorem parse_bulk_input_correct (content : PyStr) :
    parse_bulk_input content = parse_bulk_input_spec content := by
  unfold parse_bulk_input parse_bulk_input_spec
  rw [parse_bulk_fold]
  simp

/-! ## Lemmas about chunking and dict merging -/

theorem pyChunksAux_join {α : Type} :
    ∀ (fuel : Nat) (l : List α), l.length ≤ fuel →
      (pyChunksAux l fuel).flatten = l := by
  intro fuel
  induction fuel with
  | zero =>
    intro l h
    have : l = [] := List.eq_nil_of_length_eq_zero (Nat.le_zero.mp h)
    subst this
    rfl
  | succ fuel ih =>
    intro l h
    rw [pyChunksAux]
    by_cases he : l.isEmpty
    · rw [if_pos he]
      rw [List.isEmpty_iff] at he
      simp [he]
    · rw [if_neg he]
      rw [List.isEmpty_iff] at he
      have hlen : (l.drop 50).length ≤ fuel := by
        have h1 : 1 ≤ l.length := by
          cases l with
          | nil => exact absurd rfl he
          | cons a t => simp
        simp only [List.length_drop]
        omega
      rw [List.flatten_cons, ih _ hlen, List.take_append_drop]

theorem pyChunksAux_length {α : Type} :
    ∀ (fuel : Nat) (l : List α), l.length ≤ fuel →
      (pyChunksAux l fuel).length = (l.length + 49) / 50 := by
  intro fuel
  induction fuel with
  | zero =>
    intro l h
    have : l = [] := List.eq_nil_of_length_eq_zero (Nat.le_zero.mp h)
    subst this
    simp [pyChunksAux]
  | succ fuel ih =>
    intro l h
    rw [pyChunksAux]
    by_cases he : l.isEmpty
    · rw [if_pos he]
      rw [List.isEmpty_iff] at he
      simp [he]
    · rw [if_neg he]
      rw [List.isEmpty_iff] at he
      have h1 : 1 ≤ l.length := by
        cases l with
        | nil => exact absurd rfl he
        | cons a t => simp
      have hlen : (l.drop 50).length ≤ fuel := by
        simp only [List.length_drop]
        omega
      rw [List.length_cons, ih _ hlen]
      simp only [List.length_drop]
      omega

theorem pyChunksAux_mem {α : Type} :
    ∀ (fuel : Nat) (l : List α) (c : List α), c ∈ pyChunksAux l fuel →
      c.length ≤ 50 := by
  intro fuel
  induction fuel with
  | zero => intro l c h; simp [pyChunksAux] at h
  | succ fuel ih =>
    intro l c h
    rw [pyChunksAux] at h
    by_cases he : l.isEmpty
    · rw [if_pos he] at h
      simp at h
    · rw [if_neg he] at h
      rcases List.mem_cons.mp h with h1 | h2
      · subst h1
        exact List.length_take_le 50 l
      · exact ih _ _ h2

theorem contains_pyDictInsert {β : Type} (d : List (PyStr × β)) (k k2 : PyStr)
    (v : β) :
    pyDictContains (pyDictInsert d k v) k2 = true ↔
      pyDictContains d k2 = true ∨ k2 = k := by
  unfold pyDictInsert
  by_cases hd : pyDictContains d k
  · rw [if_pos hd]
    unfold pyDictContains at hd ⊢
    simp only [List.any_map, List.any_eq_true, Function.comp_apply,
      beq_iff_eq] at hd ⊢
    constructor
    · rintro ⟨p, hp, h⟩
      by_cases hc : p.1 = k
      · rw [if_pos (by simpa using hc)] at h
        right
        exact h.symm
      · rw [if_neg (by simpa using hc)] at h
        exact Or.inl ⟨p, hp, h⟩
    · rintro (⟨p, hp, h⟩ | rfl)
      · refine ⟨p, hp, ?_⟩
        by_cases hc : p.1 = k
        · rw [if_pos (by simpa using hc)]
          rw [← hc, h]
        · rw [if_neg (by simpa using hc)]
          exact h
      · obtain ⟨p, hp, h⟩ := hd
        exact ⟨p, hp, by rw [if_pos (by simpa using h)]⟩
  · rw [if_neg hd]
    unfold pyDictContains
    simp only [List.any_append, List.any_cons, List.any_nil,
      Bool.or_eq_true, List.any_eq_true, beq_iff_eq, Bool.or_false]
    constructor
    · rintro (h | h)
      · exact Or.inl h
      · exact Or.inr h.symm
    · rintro (h | rfl)
      · exact Or.inl h
      · exact Or.inr rfl

theorem contains_pyDictUpdate {β : Type} (d new : List (PyStr × β)) (k : PyStr) :
    pyDictContains (pyDictUpdate d new) k = true ↔
      pyDictContains d k = true ∨ pyDictContains new k = true := by
  induction new generalizing d with
  | nil =>
    rw [show pyDictUpdate d ([] : List (PyStr × β)) = d from rfl]
    constructor
    · exact fun h => Or.inl h
    · rintro (h | h)
      · exact h
      · rw [pyDictContains, List.any_nil] at h
        exact Bool.noConfusion h
  | cons p t ih =>
    have hstep : pyDictUpdate d (p :: t) = pyDictUpdate (pyDictInsert d p.1 p.2) t := rfl
    rw [hstep, ih, contains_pyDictInsert]
    unfold pyDictContains
    simp only [List.any_cons, Bool.or_eq_true, beq_iff_eq]
    constructor
    · rintro ((h | rfl) | h)
      · exact Or.inl h
      · exact Or.inr (Or.inl rfl)
      · exact Or.inr (Or.inr h)
    · rintro (h | (rfl | h))
      · exact Or.inl (Or.inl h)
      · exact Or.inl (Or.inr rfl)
      · exact Or.inr h

theorem contains_foldl_update {β : Type}
    (fb : List PyStr → List (PyStr × β)) (k : PyStr) :
    ∀ (chunks : List (List PyStr)) (acc : List (PyStr × β)),
      pyDictContains (chunks.foldl (fun r b => pyDictUpdate r (fb b)) acc) k = true ↔
        pyDictContains acc k = true ∨ ∃ c ∈ chunks, pyDictContains (fb c) k = true := by
  intro chunks
  induction chunks with
  | nil => intro acc; simp
  | cons c t ih =>
    intro acc
    rw [List.foldl_cons, ih, contains_pyDictUpdate]
    constructor
    · rintro ((h | h) | ⟨c2, hc2, h⟩)
      · exact Or.inl h
      · exact Or.inr ⟨c, List.mem_cons_self c t, h⟩
      · exact Or.inr ⟨c2, List.mem_cons_of_mem c hc2, h⟩
    · rintro (h | ⟨c2, hc2, h⟩)
      · exact Or.inl (Or.inl h)
      · rcases List.mem_cons.mp hc2 with rfl | hc3
        · exact Or.inl (Or.inr h)
        · exact Or.inr ⟨c2, hc3, h⟩

/-! ## Claim C5 : batching in fetch_youtube_metadata -/

/-- Claim C5: on a non-empty identifier list, `fetch_youtube_metadata`
partitions the input into batches whose concatenation is the input, each
of size at most 50, issuing exactly `ceil(n/50)` provider calls (one per
batch), and a key is present in the merged mapping exactly when some
batch response carries it. -/
theorem fetch_youtube_metadata_batches
    (fb : List PyStr → List (PyStr × YoutubeVideoFull))
    (ids : List PyStr) (h : ids ≠ []) :
    (pyChunks50 ids).flatten = ids ∧
    (pyChunks50 ids).length = (ids.length + 49) / 50 ∧
    (∀ c ∈ pyChunks50 ids, c.length ≤ 50) ∧
    (∀ k, pyDictContains (fetch_youtube_metadata fb ids) k = true ↔
      ∃ c ∈ pyChunks50 ids, pyDictContains (fb c) k = true) := by
  refine ⟨pyChunksAux_join _ _ le_rfl, pyChunksAux_length _ _ le_rfl,
    fun c hc => pyChunksAux_mem _ _ _ hc, fun k => ?_⟩
  unfold fetch_youtube_metadata
  rw [if_neg h, contains_foldl_update]
  simp only [pyDictContains, List.any_nil, Bool.false_eq_true, false_or]

/-- Witness for claim C5 at a concrete non-empty input. -/
theorem fetch_youtube_metadata_batches_witness :
    [vidA] ≠ ([] : List PyStr) ∧ (pyChunks50 [vidA]).flatten = [vidA] :=
  ⟨by decide, (fetch_youtube_metadata_batches (fun _ => []) [vidA] (by decide)).1⟩

/-! ## Claim C6 : a failing batch contributes nothing, without raising -/

/-- Claim C6: with the API credential present, a transport or provider
error on a batch call is not raised to the caller — `_fetch_batch`
returns an empty dict for that batch — and in the merged mapping a key is
present exactly when a non-failing batch response carries it (the failing
batch, modelled as answering the empty dict, contributes no key). -/
theorem fetch_batch_error_no_records (key : PyStr) (hkey : key ≠ []) :
    (∀ e : Unit, fetchBatch (some key) (Except.error e) = Except.ok []) ∧
    (∀ (fb : List PyStr → List (PyStr × YoutubeVideoFull)) (c0 ids : List PyStr)
        (k : PyStr),
      pyDictContains
          (fetch_youtube_metadata (fun c => if c = c0 then [] else fb c) ids) k = true ↔
        ∃ c ∈ pyChunks50 ids, c ≠ c0 ∧ pyDictContains (fb c) k = true) := by
  constructor
  · intro e
    unfold fetchBatch get_youtube_api_key
    simp [hkey]
  · intro fb c0 ids k
    by_cases hids : ids = []
    · subst hids
      constructor
      · intro h
        rw [fetch_youtube_metadata] at h
        rw [if_pos rfl, pyDictContains, List.any_nil] at h
        exact Bool.noConfusion h
      · rintro ⟨c, hc, _⟩
        rw [show pyChunks50 ([] : List PyStr) = [] from rfl] at hc
        exact absurd hc (List.not_mem_nil c)
    · unfold fetch_youtube_metadata
      rw [if_neg hids, contains_foldl_update]
      constructor
      · rintro (h | ⟨c, hc, hcont⟩)
        · rw [pyDictContains, List.any_nil] at h
          exact Bool.noConfusion h
        · by_cases hc0 : c = c0
          · rw [if_pos hc0, pyDictContains, List.any_nil] at hcont
            exact Bool.noConfusion hcont
          · rw [if_neg hc0] at hcont
            exact ⟨c, hc, hc0, hcont⟩
      · rintro ⟨c, hc, hc0, hcont⟩
        refine Or.inr ⟨c, hc, ?_⟩
        rw [if_neg hc0]
        exact hcont

/-- Witness for claim C6: a concrete present credential and a failing
batch call. -/
theorem fetch_batch_error_no_records_witness :
    "KEY".toList ≠ ([] : PyStr) ∧
    fetchBatch (some "KEY".toList) (Except.error ()) = Except.ok [] :=
  ⟨by decide, (fetch_batch_error_no_records "KEY".toList (by decide)).1 ()⟩

/-! ## Claim C8 : the thumbnail mapping always has the four fixed sizes -/

theorem ite_pyDictInsert {β : Type} (b : Prop) [Decidable b]
    (d : List (PyStr × β)) (k : PyStr) (x y : β) :
    (if b then pyDictInsert d k x else pyDictInsert d k y) =
      pyDictInsert d k (if b then x else y) := by
  by_cases hb : b <;> simp [hb]

theorem buildThumbnails_keys (td : List (PyStr × List (PyStr × PyStr))) :
    (buildThumbnails td).map Prod.fst = thumbnailSizes := by
  unfold buildThumbnails thumbnailSizes
  simp only [List.foldl_cons, List.foldl_nil]
  rw [ite_pyDictInsert, ite_pyDictInsert, ite_pyDictInsert, ite_pyDictInsert]
  rfl

theorem mem_pyDictInsert_snd {β : Type} (d : List (PyStr × β)) (k : PyStr)
    (v : β) (p : PyStr × β) (h : p ∈ pyDictInsert d k v) : p ∈ d ∨ p.2 = v := by
  unfold pyDictInsert at h
  by_cases hd : pyDictContains d k
  · rw [if_pos hd] at h
    obtain ⟨q, hq, hfq⟩ := List.mem_map.mp h
    by_cases hc : (q.1 == k) = true
    · rw [if_pos hc] at hfq
      right
      rw [← hfq]
    · rw [if_neg hc] at hfq
      left
      rw [← hfq]
      exact hq
  · rw [if_neg hd] at h
    rcases List.mem_append.mp h with h1 | h1
    · exact Or.inl h1
    · right
      rw [List.mem_singleton.mp h1]

theorem mem_buildBatchResults (data : ApiData) (p : PyStr × YoutubeVideoFull)
    (h : p ∈ buildBatchResults data) : ∃ item, p.2 = buildVideo item := by
  unfold buildBatchResults at h
  cases hdata : data.items? with
  | none =>
    rw [hdata] at h
    exact absurd h (List.not_mem_nil p)
  | some items =>
    rw [hdata] at h
    clear hdata
    suffices haux : ∀ (its : List ApiItem) (acc : List (PyStr × YoutubeVideoFull)),
        p ∈ its.foldl (fun results item =>
          pyDictInsert results item.id (buildVideo item)) acc →
        p ∈ acc ∨ ∃ item, p.2 = buildVideo item by
      rcases haux items [] h with hin | hex
      · exact absurd hin (List.not_mem_nil p)
      · exact hex
    intro its
    induction its with
    | nil => intro acc hacc; exact Or.inl hacc
    | cons i t ih =>
      intro acc hacc
      rw [List.foldl_cons] at hacc
      rcases ih _ hacc with hin | hex
      · rcases mem_pyDictInsert_snd _ _ _ _ hin with h1 | h1
        · exact Or.inl h1
        · exact Or.inr ⟨i, h1⟩
      · exact Or.inr hex

/-- Claim C8: every record a successful `_fetch_batch` call produces
carries a thumbnail mapping whose keys are exactly the four fixed size
names `default`, `medium`, `high`, `maxres`, in that order — a size
absent from the provider data is stored as `None`, never omitted. -/
theorem fetch_batch_thumbnails_complete (key : PyStr) (data : ApiData)
    (d : List (PyStr × YoutubeVideoFull)) (vid : PyStr) (v : YoutubeVideoFull)
    (hfetch : fetchBatch (some key) (Except.ok data) = Except.ok d)
    (hmem : (vid, v) ∈ d) :
    v.thumbnails.map Prod.fst = thumbnailSizes := by
  have hd : d = buildBatchResults data := by
    unfold fetchBatch get_youtube_api_key at hfetch
    by_cases hk : key = []
    · rw [hk] at hfetch
      simp at hfetch
    · simp only [hk, if_false, ite_false] at hfetch
      exact (Except.ok.injEq _ _ ▸ hfetch).symm
  subst hd
  obtain ⟨item, hitem⟩ := mem_buildBatchResults data (vid, v) hmem
  have hv : v = buildVideo item := hitem
  rw [hv]
  exact buildThumbnails_keys item.snippet.thumbnails

/-- Witness for claim C8 at a concrete successful batch response. -/
theorem fetch_batch_thumbnails_complete_witness :
    fetchBatch (some "KEY".toList) (Except.ok ⟨some [apiItemFor vidA]⟩) =
      Except.ok (buildBatchResults ⟨some [apiItemFor vidA]⟩) ∧
    (vidA, buildVideo (apiItemFor vidA)) ∈ buildBatchResults ⟨some [apiItemFor vidA]⟩ ∧
    (buildVideo (apiItemFor vidA)).thumbnails.map Prod.fst = thumbnailSizes :=
  ⟨rfl, by decide,
   fetch_batch_thumbnails_complete "KEY".toList ⟨some [apiItemFor vidA]⟩
     (buildBatchResults ⟨some [apiItemFor vidA]⟩) vidA (buildVideo (apiItemFor vidA))
     rfl (by decide)⟩

/-! ## Claim C1 : the empty-metadata early return loses identifiers -/

/-- Claim C1 fails on the code: when the metadata fetch returns an empty
mapping (here the provider answers every batch with nothing), the early
return at main.py line 111 skips step 5, so the deduplicated valid
identifier `vidA` appears in neither `items` nor `errors` — it is lost,
with `|items| + |errors| = 0 <` the number of deduplicated identifiers. -/
theorem get_youtube_details_empty_metadata_loses_ids :
    valid_ids_of [vidA] = [vidA] ∧
    get_youtube_details id (fun _ => []) (fun _ => TsResult.ret none) true [vidA] =
      ⟨[], []⟩ :=
  ⟨by decide, by decide⟩

/-! ## Claim C2 : list(set(...)) scrambles the processing order -/

/-- Claim C2 fails on the code: `valid_ids` is deduplicated in first-seen
order, but main.py line 97 re-orders it through `list(set(valid_ids))`,
whose iteration order is unspecified (hash-randomised).  Under the
legitimate set order that reverses the list (`List.reverse` is a
duplicate-free permutation), the per-video loop walks `[vidB, vidA]` and
the resulting `items` are not in first-seen input order. -/
theorem get_youtube_details_order_scrambled :
    valid_ids_of [vidA, vidB] = [vidA, vidB] ∧
    (get_youtube_details List.reverse echoBatch (fun _ => TsResult.ret none) false
        [vidA, vidB]).items.map YoutubeVideoFull.id = [vidB, vidA] ∧
    [vidB, vidA] ≠ [vidA, vidB] :=
  ⟨by decide, by decide, by decide⟩

/-! ## Claim C3 : the popular-sort channel export path -/

theorem pagingLoop_fetchAll (mv : Option Nat) :
    ∀ (pages : List (List (Option PyStr))) (acc : List PyStr),
      pagingLoop true mv pages acc = acc ++ (pages.map collectPage).flatten := by
  intro pages
  induction pages with
  | nil => intro acc; simp [pagingLoop]
  | cons pg rest ih =>
    intro acc
    rw [pagingLoop.eq_def]
    cases mv with
    | none =>
      simp only
      rw [ih]
      simp
    | some m =>
      simp only [not_true_eq_false, false_and, if_false]
      rw [ih]
      simp

/-- Claim C3 on the code: with `sort_by="popular"` the paging loop indeed
ignores `max_videos` and lists the whole channel, and the metadata
batches cover all listed identifiers; but the "top view count" selection
fails — `_fetch_batch` requests only `snippet,contentDetails`, so every
built record has `view_count = None` (despite the comment "Fetch metadata
with statistics" at main.py line 595), every sort key is 0, and the
selection is just the first `k` records in metadata-response order.  In
the concrete scenario the channel lists `vidA` before `vidB` (all
identifiers listed), the provider responds `[vidB, vidA]`, and with
`max_videos = 1` the exported selection is `[vidB]`, not the
listing-order tie-break `[vidA]` the claim requires. -/
theorem channel_popular_selection_not_by_views :
    (∀ (pages : List (List (Option PyStr))) (mk : Option Nat),
      fetch_channel_video_ids pages mk "popular".toList =
        (pages.map collectPage).flatten) ∧
    (∀ ids : List PyStr, (pyChunks50 ids).flatten = ids) ∧
    (∀ item : ApiItem, (buildVideo item).view_count = none) ∧
    fetch_channel_video_ids listingPagesAB (some 1) "popular".toList = [vidA, vidB] ∧
    process_channel_export_popular listingPagesAB metadataRespBA (some 1) = [vidB] ∧
    [vidB] ≠ [vidA] := by
  refine ⟨?_, ?_, ?_, by decide, by decide, by decide⟩
  · intro pages mk
    exact pagingLoop_fetchAll mk pages []
  · exact fun ids => pyChunksAux_join _ _ le_rfl
  · intro item
    rfl

/-! ## Claim C7 : job finalization -/

/-- Claim C7 as stated is false for the channel-export finalizer: on a
successful export of 2 selected identifiers of which 1 produced an item,
the job completes with `current = 1` but `total = 2`, so
`current = total = item count` does not hold. -/
theorem channel_finalize_current_ne_total :
    (process_channel_export_finalize
        (ChannelOutcome.ok vidA [] [vidA, vidB] ⟨[plainVideo vidA], []⟩ false)
        initialJob).status = "completed" ∧
    (process_channel_export_finalize
        (ChannelOutcome.ok vidA [] [vidA, vidB] ⟨[plainVideo vidA], []⟩ false)
        initialJob).current = 1 ∧
    (process_channel_export_finalize
        (ChannelOutcome.ok vidA [] [vidA, vidB] ⟨[plainVideo vidA], []⟩ false)
        initialJob).total = 2 ∧
    (1 : Nat) ≠ 2 :=
  ⟨rfl, rfl, rfl, by decide⟩

/-- Claim C7 (amended): on success a bulk-details job is finalized
`completed` with `current = total = ` item count and the result attached;
a channel-export job is finalized `completed` with `current = ` item
count but `total = ` number of selected identifiers, result attached; on
an uncaught failure both finalize to `error` with `current = total = 0`,
the message `"Error: "` plus the failure text, and no result; and every
finalization yields exactly one status among
completed / cancelled / error. -/
theorem job_finalization_contract :
    (∀ (j : Job) (resp : YoutubeDetailsResponse),
      process_bulk_details_finalize (.ok resp false) j =
        ⟨"completed", resp.items.length, resp.items.length, "Completed",
          some (.details resp)⟩) ∧
    (∀ (j : Job) (msg : String),
      process_bulk_details_finalize (.exn msg) j =
        ⟨"error", 0, 0, "Error: " ++ msg, none⟩) ∧
    (∀ (j : Job) (cid title : PyStr) (vids : List PyStr)
        (resp : YoutubeDetailsResponse),
      process_channel_export_finalize (.ok cid title vids resp false) j =
        ⟨"completed", resp.items.length, vids.length, "Completed",
          some (.channel cid title vids.length resp.items.length resp resp.errors)⟩) ∧
    (∀ (j : Job) (msg : String),
      process_channel_export_finalize (.exn msg) j =
        ⟨"error", 0, 0, "Error: " ++ msg, none⟩) ∧
    (∀ (o : BulkOutcome) (j : Job),
      (process_bulk_details_finalize o j).status = "completed" ∨
      (process_bulk_details_finalize o j).status = "cancelled" ∨
      (process_bulk_details_finalize o j).status = "error") ∧
    (∀ (o : ChannelOutcome) (j : Job),
      (process_channel_export_finalize o j).status = "completed" ∨
      (process_channel_export_finalize o j).status = "cancelled" ∨
      (process_channel_export_finalize o j).status = "error") := by
  refine ⟨fun j resp => rfl, fun j msg => rfl, fun j cid title vids resp => rfl,
    fun j msg => rfl, ?_, ?_⟩
  · intro o j
    cases o with
    | ok resp c =>
      cases c
      · exact Or.inl rfl
      · exact Or.inr (Or.inl rfl)
    | cancelledErr => exact Or.inr (Or.inl rfl)
    | exn msg => exact Or.inr (Or.inr rfl)
  · intro o j
    cases o with
    | ok cid title vids resp c =>
      cases c
      · exact Or.inl rfl
      · exact Or.inr (Or.inl rfl)
    | cancelledErr => exact Or.inr (Or.inl rfl)
    | exn msg => exact Or.inr (Or.inr rfl)

/-! ## Claim C9 : transcript text cleanup -/

theorem mem_replaceCRLF (l : PyStr) (c : Char) (h : c ∈ replaceCRLF l) :
    c ∈ l ∨ c = ' ' := by
  induction l using replaceCRLF.induct with
  | case1 => simp [replaceCRLF] at h
  | case2 rest ih =>
    rw [show replaceCRLF ('\r' :: '\n' :: rest) = ' ' :: replaceCRLF rest from rfl] at h
    rcases List.mem_cons.mp h with h1 | h1
    · exact Or.inr h1
    · rcases ih h1 with h2 | h2
      · exact Or.inl (List.mem_cons_of_mem _ (List.mem_cons_of_mem _ h2))
      · exact Or.inr h2
  | case3 c2 rest hne ih =>
    rw [replaceCRLF.eq_def] at h
    split at h
    · rename_i heq
      exact absurd heq (by simp)
    · rename_i rest1 heq
      injection heq with h1 h2
      exact ((hne rest1 h1 h2)).elim
    · rename_i c3 rest3 heq
      injection heq with h1 h2
      rcases List.mem_cons.mp h with hm | hm
      · exact Or.inl (by rw [hm, ← h1]; exact List.mem_cons_self _ _)
      · rcases ih (by rw [h2]; exact hm) with h3 | h3
        · exact Or.inl (List.mem_cons_of_mem _ h3)
        · exact Or.inr h3

theorem mem_map_or_space (f : Char → Char) (hf : ∀ a, f a = a ∨ f a = ' ')
    (l : PyStr) (c : Char) (h : c ∈ l.map f) : c ∈ l ∨ c = ' ' := by
  obtain ⟨a, ha, hfa⟩ := List.mem_map.mp h
  rcases hf a with h1 | h1
  · exact Or.inl (by rw [← hfa, h1]; exact ha)
  · exact Or.inr (by rw [← hfa, h1])

theorem mem_wsCollapseAux :
    ∀ (l : PyStr) (b : Bool) (c : Char), c ∈ wsCollapseAux b l → c ∈ l ∨ c = ' ' := by
  intro l
  induction l with
  | nil => intro b c h; simp [wsCollapseAux] at h
  | cons x rest ih =>
    intro b c h
    rw [show wsCollapseAux b (x :: rest) =
        if pyIsSpace x then
          (if b then wsCollapseAux true rest else ' ' :: wsCollapseAux true rest)
        else x :: wsCollapseAux false rest from rfl] at h
    by_cases hx : pyIsSpace x
    · rw [if_pos hx] at h
      by_cases hb : b
      · rw [if_pos hb] at h
        rcases ih true c h with h1 | h1
        · exact Or.inl (List.mem_cons_of_mem _ h1)
        · exact Or.inr h1
      · rw [if_neg hb] at h
        rcases List.mem_cons.mp h with h1 | h1
        · exact Or.inr h1
        · rcases ih true c h1 with h2 | h2
          · exact Or.inl (List.mem_cons_of_mem _ h2)
          · exact Or.inr h2
    · rw [if_neg hx] at h
      rcases List.mem_cons.mp h with h1 | h1
      · exact Or.inl (by rw [h1]; exact List.mem_cons_self _ _)
      · rcases ih false c h1 with h2 | h2
        · exact Or.inl (List.mem_cons_of_mem _ h2)
        · exact Or.inr h2

theorem head_wsCollapseAux_true :
    ∀ (l : PyStr) (c : Char), (wsCollapseAux true l).head? = some c →
      pyIsSpace c = false := by
  intro l
  induction l with
  | nil => intro c h; simp [wsCollapseAux] at h
  | cons x rest ih =>
    intro c h
    rw [show wsCollapseAux true (x :: rest) =
        if pyIsSpace x then wsCollapseAux true rest
        else x :: wsCollapseAux false rest from rfl] at h
    by_cases hx : pyIsSpace x
    · rw [if_pos hx] at h
      exact ih c h
    · rw [if_neg hx] at h
      rw [List.head?_cons] at h
      rw [← Option.some_injective _ h]
      exact Bool.eq_false_iff.mpr hx

theorem chain'_wsCollapseAux :
    ∀ (l : PyStr) (b : Bool),
      List.Chain' (fun a b2 => ¬(pyIsSpace a = true ∧ pyIsSpace b2 = true))
        (wsCollapseAux b l) := by
  intro l
  induction l with
  | nil => intro b; simp [wsCollapseAux]
  | cons x rest ih =>
    intro b
    rw [show wsCollapseAux b (x :: rest) =
        if pyIsSpace x then
          (if b then wsCollapseAux true rest else ' ' :: wsCollapseAux true rest)
        else x :: wsCollapseAux false rest from rfl]
    by_cases hx : pyIsSpace x
    · rw [if_pos hx]
      by_cases hb : b
      · rw [if_pos hb]
        exact ih true
      · rw [if_neg hb]
        refine List.chain'_cons'.mpr ⟨?_, ih true⟩
        intro y hy
        rintro ⟨_, hy2⟩
        rw [head_wsCollapseAux_true rest y hy] at hy2
        exact Bool.noConfusion hy2
    · rw [if_neg hx]
      refine List.chain'_cons'.mpr ⟨?_, ih false⟩
      intro y _
      rintro ⟨hx2, _⟩
      rw [hx2] at hx
      exact hx rfl

theorem chain'_rdropWhile {α : Type} {R : α → α → Prop} (p : α → Bool)
    (l : List α) (h : List.Chain' R l) : List.Chain' R (List.rdropWhile p l) := by
  rw [List.rdropWhile]
  have h1 : List.Chain' (flip R) l.reverse := List.chain'_reverse.mpr h
  have h2 : List.Chain' (flip R) (l.reverse.dropWhile p) :=
    h1.suffix (List.dropWhile_suffix p)
  exact List.chain'_reverse.mpr h2

theorem chain'_pyStrip (l : PyStr) {R : Char → Char → Prop}
    (h : List.Chain' R l) : List.Chain' R (pyStrip l) :=
  chain'_rdropWhile _ _ (h.suffix (List.dropWhile_suffix pyIsSpace))

theorem mem_rdropWhile {α : Type} (p : α → Bool) (l : List α) (c : α)
    (h : c ∈ List.rdropWhile p l) : c ∈ l := by
  rw [List.rdropWhile] at h
  rw [List.mem_reverse] at h
  have := (List.dropWhile_sublist p).subset h
  rwa [List.mem_reverse] at this

theorem mem_pyStrip (l : PyStr) (c : Char) (h : c ∈ pyStrip l) : c ∈ l :=
  (List.dropWhile_sublist pyIsSpace).subset (mem_rdropWhile _ _ _ h)

theorem pyStrip_head_not (l : PyStr) (c : Char) (h : (pyStrip l).head? = some c) :
    pyIsSpace c = false :=
  head?_dropWhile_false pyIsSpace l c (head?_rdropWhile pyIsSpace _ c h)

theorem pyStrip_last_not (l : PyStr) (c : Char) (h : (pyStrip l).getLast? = some c) :
    pyIsSpace c = false := by
  unfold pyStrip at h
  have hne : List.rdropWhile pyIsSpace (List.dropWhile pyIsSpace l) ≠ [] := by
    intro hx
    rw [hx] at h
    simp at h
  rw [List.getLast?_eq_getLast _ hne] at h
  have hl := List.rdropWhile_last_not pyIsSpace (List.dropWhile pyIsSpace l) hne
  rw [Option.some_injective _ h] at hl
  exact Bool.eq_false_iff.mpr hl

/-- Claim C9: whenever the transcript fetch succeeds (without the
optional truncation, which is off by default), the returned text has no
backslash, no character from the control ranges `00-1f` / `7f-9f` (hence
no line break), no two adjacent whitespace characters, and no leading or
trailing whitespace. -/
theorem fetch_transcript_text_clean (payload : Option PyStr) (lim : Option Nat)
    (t : PyStr) (h : fetch_transcript_text payload false lim = some t) :
    (∀ c ∈ t, c ≠ '\\' ∧ isCtrl c = false) ∧
    List.Chain' (fun a b => ¬(pyIsSpace a = true ∧ pyIsSpace b = true)) t ∧
    (∀ c, t.head? = some c → pyIsSpace c = false) ∧
    (∀ c, t.getLast? = some c → pyIsSpace c = false) := by
  cases payload with
  | none => simp [fetch_transcript_text] at h
  | some raw =>
    have ht : t = cleanTranscriptText raw := by
      cases lim with
      | none =>
        simp only [fetch_transcript_text] at h
        exact (Option.some_injective _ h).symm
      | some m =>
        simp only [fetch_transcript_text, false_and, if_false, ite_false] at h
        exact (Option.some_injective _ h).symm
    subst ht
    unfold cleanTranscriptText
    simp only []
    refine ⟨?_, ?_, ?_, ?_⟩
    · intro c hc
      have h6 := mem_pyStrip _ _ hc
      rcases mem_wsCollapseAux _ _ _ h6 with h5 | h5
      · -- c survives to the control-substituted stage
        obtain ⟨a, ha, hfa⟩ := List.mem_map.mp h5
        by_cases hctrl : isCtrl a
        · rw [if_pos hctrl] at hfa
          rw [← hfa]
          exact ⟨by decide, by decide⟩
        · rw [if_neg hctrl] at hfa
          subst hfa
          refine ⟨?_, Bool.eq_false_iff.mpr hctrl⟩
          -- chase the backslash through the space-introducing stages
          have hb : ∀ x, (fun c2 => if c2 = '\t' then ' ' else c2) x = x ∨
              (fun c2 => if c2 = '\t' then ' ' else c2) x = ' ' := by
            intro x
            by_cases hx : x = '\t'
            · exact Or.inr (by simp [hx])
            · exact Or.inl (by simp [hx])
          have hr : ∀ x, (fun c2 => if c2 = '\r' then ' ' else c2) x = x ∨
              (fun c2 => if c2 = '\r' then ' ' else c2) x = ' ' := by
            intro x
            by_cases hx : x = '\r'
            · exact Or.inr (by simp [hx])
            · exact Or.inl (by simp [hx])
          have hn : ∀ x, (fun c2 => if c2 = '\n' then ' ' else c2) x = x ∨
              (fun c2 => if c2 = '\n' then ' ' else c2) x = ' ' := by
            intro x
            by_cases hx : x = '\n'
            · exact Or.inr (by simp [hx])
            · exact Or.inl (by simp [hx])
          rcases mem_map_or_space _ hb _ _ ha with h4 | h4
          · rcases mem_map_or_space _ hr _ _ h4 with h3 | h3
            · rcases mem_map_or_space _ hn _ _ h3 with h2 | h2
              · rcases mem_replaceCRLF _ _ h2 with h1 | h1
                · have := List.mem_filter.mp h1
                  intro hcc
                  rw [hcc] at this
                  simp at this
                · rw [h1]; decide
              · rw [h2]; decide
            · rw [h3]; decide
          · rw [h4]; decide
      · rw [h5]
        exact ⟨by decide, by decide⟩
    · exact chain'_pyStrip _ (chain'_wsCollapseAux _ false)
    · exact fun c hc => pyStrip_head_not _ c hc
    · exact fun c hc => pyStrip_last_not _ c hc

/-- Witness for claim C9 at a concrete successful fetch. -/
theorem fetch_transcript_text_clean_witness :
    fetch_transcript_text (some "a b".toList) false none = some "a b".toList ∧
    List.Chain' (fun a b => ¬(pyIsSpace a = true ∧ pyIsSpace b = true))
      "a b".toList :=
  ⟨by decide,
   (fetch_transcript_text_clean (some "a b".toList) none "a b".toList
     (by decide)).2.1⟩
